import Mathlib

set_option maxHeartbeats 1000000

namespace TraitGen

/-!
Shallow embedding of `src/python/openassetio_traitgen/generators/markdown.py`.

The module has three parts:
* the two custom Jinja filters (`cleanup_md_string`, `to_type_pretty_name`),
* the `generate` entry point, modelled as a function producing the ordered
  trace of filesystem/template events it performs, together with the error
  it raises (if any),
* a small filesystem model used to state overwrite/idempotence facts.
-/

/-- Characters matched by the regex class `\s` of the pattern `(:\s*)([-\*])`
in `cleanup_md_string` (ASCII range: space, tab, newline, carriage return,
vertical tab, form feed; the generator's inputs are ASCII). -/
def isPySpace (c : Char) : Bool :=
  c == ' ' || c == '\t' || c == '\n' || c == '\r' || c == '\x0b' || c == '\x0c'

/-- Characters matched by the regex class `[-\*]` (the second capture group)
of the first substitution in `cleanup_md_string`. -/
def isMarker (c : Char) : Bool :=
  c == '-' || c == '*'

/-- First substitution of `cleanup_md_string`:
`re.sub("(:\s*)([-\*])", r":\n \2", string)`, written with a fuel argument
(any fuel at least the list's length yields the substitution; `sub1` below
instantiates it) so the function is structurally recursive and computable by
the kernel.
A match is a colon, a (greedy, possibly empty) run of whitespace, and a
marker character; it is replaced by `:`, newline, one space, and the marker.
Scanning is leftmost and resumes after each match, as `re.sub` does; note
that backtracking inside `\s*` can never produce a match that the maximal
whitespace run does not, because no whitespace character is a marker. -/
def sub1F : Nat → List Char → List Char
  | _, [] => []
  | 0, _ => []
  | fuel + 1, c :: rest =>
    if c = ':' then
      match rest.dropWhile isPySpace with
      | m :: rest2 =>
        if isMarker m then ':' :: '\n' :: ' ' :: m :: sub1F fuel rest2
        else c :: sub1F fuel rest
      | [] => c :: sub1F fuel rest
    else c :: sub1F fuel rest

/-- The first substitution of `cleanup_md_string`. -/
def sub1 (l : List Char) : List Char := sub1F l.length l

/-- The literal pattern of the second substitution in `cleanup_md_string`
(no regex metacharacters, so `re.sub` treats it as a literal substring). -/
def patP : List Char := ("asset - `\"seq003\"`").toList

/-- The replacement of the second substitution in `cleanup_md_string`. -/
def repQ : List Char := ("asset\n- `\"seq003\"`").toList

/-- Second substitution of `cleanup_md_string`:
`re.sub('asset - `"seq003"`', 'asset\n- `"seq003"`', new_string)`:
leftmost, non-overlapping replacement of every occurrence of the literal
pattern `patP` by `repQ`; fuel as in `sub1F`. -/
def sub2F : Nat → List Char → List Char
  | _, [] => []
  | 0, _ => []
  | fuel + 1, c :: rest =>
    if patP.isPrefixOf (c :: rest) then
      repQ ++ sub2F fuel ((c :: rest).drop patP.length)
    else c :: sub2F fuel rest

/-- The second substitution of `cleanup_md_string`. -/
def sub2 (l : List Char) : List Char := sub2F l.length l

/-- The `cleanup_md_string` filter from `markdown.py`: the two substitutions
applied in sequence. -/
def cleanup_md_string (s : String) : String :=
  (sub2 (sub1 s.toList)).asString

/-- Decides whether the first substitution's regex `(:\s*)([-\*])` has a
match anywhere in the string. -/
def hasMatch1 : List Char → Bool
  | [] => false
  | c :: rest =>
    ((c == ':') &&
      (match rest.dropWhile isPySpace with
       | m :: _ => isMarker m
       | [] => false)) || hasMatch1 rest

/-- Decides whether the literal pattern `patP` occurs anywhere in the string. -/
def containsP : List Char → Bool
  | [] => false
  | c :: rest => patP.isPrefixOf (c :: rest) || containsP rest

/-! Equation lemmas for `sub1` and `sub2`: the fuel argument is invariant
above the list's length, giving the substitution's natural equations. -/

lemma sub1F_nil (fuel : Nat) : sub1F fuel [] = [] := by
  cases fuel <;> rfl

lemma sub2F_nil (fuel : Nat) : sub2F fuel [] = [] := by
  cases fuel <;> rfl

lemma dropWhile_cons_length {p : Char → Bool} {l : List Char} {m : Char} {r : List Char}
    (h : l.dropWhile p = m :: r) : r.length < l.length := by
  have hle : (l.dropWhile p).length ≤ l.length := (List.dropWhile_sublist _).length_le
  rw [h] at hle
  simp only [List.length_cons] at hle
  omega

lemma sub1F_fuel (fuel1 : Nat) : ∀ (fuel2 : Nat) (l : List Char),
    l.length ≤ fuel1 → l.length ≤ fuel2 → sub1F fuel1 l = sub1F fuel2 l := by
  induction fuel1 with
  | zero =>
    intro fuel2 l h1 h2
    cases l with
    | nil => rw [sub1F_nil, sub1F_nil]
    | cons c rest => exact absurd h1 (by simp)
  | succ fuel ih =>
    intro fuel2 l h1 h2
    cases l with
    | nil => rw [sub1F_nil, sub1F_nil]
    | cons c rest =>
      cases fuel2 with
      | zero => exact absurd h2 (by simp)
      | succ fuel2 =>
        simp only [List.length_cons] at h1 h2
        have h1a : rest.length ≤ fuel := by omega
        have h2a : rest.length ≤ fuel2 := by omega
        show sub1F (fuel + 1) (c :: rest) = sub1F (fuel2 + 1) (c :: rest)
        simp only [sub1F]
        by_cases hc : c = ':'
        · simp only [if_pos hc]
          rcases hdw : rest.dropWhile isPySpace with _ | ⟨m, rest2⟩
          · simp only [hdw]
            rw [ih fuel2 rest h1a h2a]
          · simp only [hdw]
            have hlt : rest2.length ≤ rest.length :=
              Nat.le_of_lt (dropWhile_cons_length hdw)
            by_cases hm : isMarker m = true
            · simp only [if_pos hm]
              rw [ih fuel2 rest2 (le_trans hlt h1a) (le_trans hlt h2a)]
            · simp only [if_neg hm]
              rw [ih fuel2 rest h1a h2a]
        · simp only [if_neg hc]
          rw [ih fuel2 rest h1a h2a]

lemma sub2F_fuel (fuel1 : Nat) : ∀ (fuel2 : Nat) (l : List Char),
    l.length ≤ fuel1 → l.length ≤ fuel2 → sub2F fuel1 l = sub2F fuel2 l := by
  induction fuel1 with
  | zero =>
    intro fuel2 l h1 h2
    cases l with
    | nil => rw [sub2F_nil, sub2F_nil]
    | cons c rest => exact absurd h1 (by simp)
  | succ fuel ih =>
    intro fuel2 l h1 h2
    cases l with
    | nil => rw [sub2F_nil, sub2F_nil]
    | cons c rest =>
      cases fuel2 with
      | zero => exact absurd h2 (by simp)
      | succ fuel2 =>
        simp only [List.length_cons] at h1 h2
        have h1a : rest.length ≤ fuel := by omega
        have h2a : rest.length ≤ fuel2 := by omega
        show sub2F (fuel + 1) (c :: rest) = sub2F (fuel2 + 1) (c :: rest)
        simp only [sub2F]
        by_cases hp : patP.isPrefixOf (c :: rest) = true
        · simp only [if_pos hp]
          have hlen : ((c :: rest).drop patP.length).length ≤ rest.length := by
            simp only [List.length_drop, List.length_cons]
            have : 0 < patP.length := by decide
            omega
          rw [ih fuel2 _ (le_trans hlen h1a) (le_trans hlen h2a)]
        · simp only [if_neg hp]
          rw [ih fuel2 rest h1a h2a]

lemma sub1_nil : sub1 [] = [] := rfl

lemma sub1_cons_of_ne (c : Char) (rest : List Char) (h : c ≠ ':') :
    sub1 (c :: rest) = c :: sub1 rest := by
  show sub1F (rest.length + 1) (c :: rest) = c :: sub1F rest.length rest
  simp only [sub1F, if_neg h]

lemma sub1_colon_of_marker (rest : List Char) (m : Char) (rest2 : List Char)
    (h : rest.dropWhile isPySpace = m :: rest2) (hm : isMarker m = true) :
    sub1 (':' :: rest) = ':' :: '\n' :: ' ' :: m :: sub1 rest2 := by
  show sub1F (rest.length + 1) (':' :: rest) = ':' :: '\n' :: ' ' :: m :: sub1F rest2.length rest2
  simp only [sub1F, h, hm, eq_self_iff_true, if_true]
  rw [sub1F_fuel rest.length rest2.length rest2
    (Nat.le_of_lt (dropWhile_cons_length h)) (le_refl _)]

lemma sub1_colon_of_not_marker (rest : List Char) (m : Char) (rest2 : List Char)
    (h : rest.dropWhile isPySpace = m :: rest2) (hm : isMarker m = false) :
    sub1 (':' :: rest) = ':' :: sub1 rest := by
  show sub1F (rest.length + 1) (':' :: rest) = ':' :: sub1F rest.length rest
  simp only [sub1F, h, hm, eq_self_iff_true, if_true, Bool.false_eq_true, if_false]

lemma sub1_colon_of_nil (rest : List Char) (h : rest.dropWhile isPySpace = []) :
    sub1 (':' :: rest) = ':' :: sub1 rest := by
  show sub1F (rest.length + 1) (':' :: rest) = ':' :: sub1F rest.length rest
  simp only [sub1F, h, eq_self_iff_true, if_true]

lemma sub2_nil : sub2 [] = [] := rfl

lemma sub2_pos (c : Char) (rest : List Char) (h : patP.isPrefixOf (c :: rest) = true) :
    sub2 (c :: rest) = repQ ++ sub2 ((c :: rest).drop patP.length) := by
  show sub2F (rest.length + 1) (c :: rest)
      = repQ ++ sub2F ((c :: rest).drop patP.length).length ((c :: rest).drop patP.length)
  simp only [sub2F, h, if_true]
  rw [sub2F_fuel rest.length _ _ (by
      simp only [List.length_drop, List.length_cons]
      have : 0 < patP.length := by decide
      omega)
    (le_refl _)]

lemma sub2_neg (c : Char) (rest : List Char) (h : patP.isPrefixOf (c :: rest) = false) :
    sub2 (c :: rest) = c :: sub2 rest := by
  show sub2F (rest.length + 1) (c :: rest) = c :: sub2F rest.length rest
  simp only [sub2F, h, Bool.false_eq_true, if_false]

/-! Helper lemmas about `sub1`. -/

lemma dropWhile_head_false {p : Char → Bool} {l : List Char} {m : Char} {r : List Char}
    (h : l.dropWhile p = m :: r) : p m = false := by
  have hh := List.head?_dropWhile_not p l
  rw [h] at hh
  simpa using hh

lemma dropWhile_all {p : Char → Bool} {l : List Char} (h : l.dropWhile p = []) :
    ∀ c ∈ l, p c = true :=
  fun c hc => List.dropWhile_eq_nil_iff.mp h c hc

lemma marker_not_space {m : Char} (hm : isMarker m = true) : isPySpace m = false := by
  simp only [isMarker, Bool.or_eq_true, beq_iff_eq] at hm
  rcases hm with h | h <;> subst h <;> decide

lemma sub1_append_no_colon (u t : List Char) (h : ∀ c ∈ u, c ≠ ':') :
    sub1 (u ++ t) = u ++ sub1 t := by
  induction u with
  | nil => simp
  | cons c u ih =>
    have hc : c ≠ ':' := h c (by simp)
    rw [List.cons_append, sub1_cons_of_ne _ _ hc, ih (fun d hd => h d (by simp [hd])),
      List.cons_append]

lemma sub1_eq_self_of_all_space (l : List Char) (h : ∀ c ∈ l, isPySpace c = true) :
    sub1 l = l := by
  have hnc : ∀ c ∈ l, c ≠ ':' := fun c hc he => absurd (h c hc) (by subst he; decide)
  have := sub1_append_no_colon l [] hnc
  simpa [sub1_nil] using this

lemma sub1_cons_head (c : Char) (t : List Char) : ∃ u, sub1 (c :: t) = c :: u := by
  by_cases hc : c = ':'
  · subst hc
    rcases hdw : t.dropWhile isPySpace with _ | ⟨m, r2⟩
    · exact ⟨sub1 t, sub1_colon_of_nil t hdw⟩
    · by_cases hm : isMarker m = true
      · exact ⟨'\n' :: ' ' :: m :: sub1 r2, sub1_colon_of_marker t m r2 hdw hm⟩
      · exact ⟨sub1 t, sub1_colon_of_not_marker t m r2 hdw (by simpa using hm)⟩
  · exact ⟨sub1 t, sub1_cons_of_ne c t hc⟩

/-- The first substitution of `cleanup_md_string` is idempotent: the text it
inserts (`:`, newline, space, marker) is itself a match of the pattern, and
is replaced by itself on a second pass. -/
theorem sub1_idem (s : List Char) : sub1 (sub1 s) = sub1 s := by
  have H : ∀ n, ∀ s : List Char, s.length = n → sub1 (sub1 s) = sub1 s := by
    intro n
    induction n using Nat.strong_induction_on with
    | _ n ih =>
      intro s hs
      subst hs
      cases s with
      | nil => simp [sub1_nil]
      | cons c rest =>
        by_cases hc : c = ':'
        · subst hc
          rcases hdw : rest.dropWhile isPySpace with _ | ⟨m, rest2⟩
          · have hfix : sub1 rest = rest :=
              sub1_eq_self_of_all_space rest (dropWhile_all hdw)
            rw [sub1_colon_of_nil rest hdw, hfix, sub1_colon_of_nil rest hdw, hfix]
          · have hlen2 : rest2.length < (':' :: rest).length := by
              have h1 : (rest.dropWhile isPySpace).length ≤ rest.length :=
                (List.dropWhile_sublist _).length_le
              rw [hdw] at h1
              simp only [List.length_cons] at h1 ⊢
              omega
            by_cases hm : isMarker m = true
            · rw [sub1_colon_of_marker rest m rest2 hdw hm]
              have hdw2 : ('\n' :: ' ' :: m :: sub1 rest2).dropWhile isPySpace
                  = m :: sub1 rest2 := by
                rw [List.dropWhile_cons_of_pos (by decide),
                  List.dropWhile_cons_of_pos (by decide),
                  List.dropWhile_cons_of_neg (by simp [marker_not_space hm])]
              rw [sub1_colon_of_marker _ m (sub1 rest2) hdw2 hm]
              rw [ih rest2.length hlen2 rest2 rfl]
            · have hm' : isMarker m = false := by simpa using hm
              rw [sub1_colon_of_not_marker rest m rest2 hdw hm']
              have hsplit : rest.takeWhile isPySpace ++ rest.dropWhile isPySpace = rest :=
                List.takeWhile_append_dropWhile isPySpace rest
              have hwall : ∀ d ∈ rest.takeWhile isPySpace, isPySpace d = true :=
                fun d hd => List.mem_takeWhile_imp hd
              have hwnc : ∀ d ∈ rest.takeWhile isPySpace, d ≠ ':' :=
                fun d hd he => absurd (hwall d hd) (by subst he; decide)
              obtain ⟨u, hu⟩ := sub1_cons_head m rest2
              have hs1rest : sub1 rest = rest.takeWhile isPySpace ++ m :: u := by
                conv_lhs => rw [← hsplit, hdw]
                rw [sub1_append_no_colon _ (m :: rest2) hwnc, hu]
              have hmns : isPySpace m = false := dropWhile_head_false hdw
              have hdw2 : (sub1 rest).dropWhile isPySpace = m :: u := by
                rw [hs1rest, List.dropWhile_append_of_pos hwall,
                  List.dropWhile_cons_of_neg (by simp [hmns])]
              rw [sub1_colon_of_not_marker (sub1 rest) m u hdw2 hm']
              rw [ih rest.length (by simp) rest rfl]
        · rw [sub1_cons_of_ne c rest hc, sub1_cons_of_ne c (sub1 rest) hc,
            ih rest.length (by simp) rest rfl]
  exact H s.length s rfl

/-! Boolean `isPrefixOf` helpers, and facts about the concrete pattern and
replacement of the second substitution. -/

lemma ipo_exists {w l : List Char} (h : w.isPrefixOf l = true) : ∃ t, l = w ++ t := by
  induction w generalizing l with
  | nil => exact ⟨l, rfl⟩
  | cons a w ih =>
    cases l with
    | nil => simp [List.isPrefixOf] at h
    | cons b l =>
      simp only [List.isPrefixOf, Bool.and_eq_true, beq_iff_eq] at h
      obtain ⟨rfl, h2⟩ := h
      obtain ⟨t, rfl⟩ := ih h2
      exact ⟨t, rfl⟩

lemma ipo_append_left (w u v : List Char) (h : w.length ≤ u.length) :
    w.isPrefixOf (u ++ v) = w.isPrefixOf u := by
  induction w generalizing u with
  | nil => simp [List.isPrefixOf]
  | cons a w ih =>
    cases u with
    | nil => exact absurd h (by simp)
    | cons b u =>
      simp only [List.cons_append, List.isPrefixOf, List.append_eq]
      rw [ih u (by simpa using h)]

lemma ipo_append_false (u v w : List Char) (h1 : w.isPrefixOf u = false)
    (h2 : u.isPrefixOf w = false) : w.isPrefixOf (u ++ v) = false := by
  induction u generalizing w with
  | nil => simp [List.isPrefixOf] at h2
  | cons a u ih =>
    cases w with
    | nil => simp [List.isPrefixOf] at h1
    | cons b w =>
      by_cases hab : b = a
      · subst hab
        simp only [List.cons_append, List.isPrefixOf, List.append_eq, beq_self_eq_true,
          Bool.true_and] at h1 h2 ⊢
        exact ih w h1 h2
      · simp [List.cons_append, List.isPrefixOf, hab]

lemma patP_head : patP = 'a' :: patP.tail := by decide

lemma repQ_head : repQ = 'a' :: repQ.tail := by decide

lemma patP_no_colon : ∀ c ∈ patP, c ≠ ':' := by decide

lemma repQ_no_colon : ∀ c ∈ repQ, c ≠ ':' := by decide

lemma marker_ne_a {m : Char} (hm : isMarker m = true) : m ≠ 'a' := by
  simp only [isMarker, Bool.or_eq_true, beq_iff_eq] at hm
  rcases hm with h | h <;> subst h <;> decide

lemma patP_not_prefix_of_ne {c : Char} (rest : List Char) (h : c ≠ 'a') :
    patP.isPrefixOf (c :: rest) = false := by
  have hb : ('a' == c) = false := by
    simp only [beq_eq_false_iff_ne, ne_eq]
    exact fun he => h he.symm
  rw [patP_head]
  simp [List.isPrefixOf, hb]

lemma sub2_cons_ne_a {c : Char} (rest : List Char) (h : c ≠ 'a') :
    sub2 (c :: rest) = c :: sub2 rest :=
  sub2_neg c rest (patP_not_prefix_of_ne rest h)

lemma sub2_append_no_a (u v : List Char) (h : ∀ c ∈ u, c ≠ 'a') :
    sub2 (u ++ v) = u ++ sub2 v := by
  induction u with
  | nil => simp
  | cons c u ih =>
    rw [List.cons_append, sub2_cons_ne_a _ (h c (by simp)),
      ih (fun d hd => h d (by simp [hd])), List.cons_append]

lemma sub2_eq_self_of_no_a (l : List Char) (h : ∀ c ∈ l, c ≠ 'a') : sub2 l = l := by
  have := sub2_append_no_a l [] h
  simpa [sub2_nil] using this

lemma sub2_cons_head (c : Char) (t : List Char) : ∃ u, sub2 (c :: t) = c :: u := by
  by_cases hp : patP.isPrefixOf (c :: t) = true
  · have hc : c = 'a' := by
      rw [patP_head] at hp
      simp only [List.isPrefixOf, Bool.and_eq_true, beq_iff_eq] at hp
      exact hp.1.symm
    subst hc
    rw [sub2_pos _ _ hp, repQ_head]
    exact ⟨repQ.tail ++ sub2 (('a' :: t).drop patP.length), by simp⟩
  · rw [sub2_neg c t (Bool.eq_false_iff.mpr hp)]
    exact ⟨sub2 t, rfl⟩

/-- The second substitution maps fixed points of the first substitution to
fixed points of the first substitution: its pattern and replacement contain
no colon, and the single character it changes (a space turned into a newline,
both whitespace) is wedged between non-whitespace characters, so it can
neither create nor destroy a match of the first pattern. -/
theorem sub1_sub2_fixed (t : List Char) (hfix : sub1 t = t) :
    sub1 (sub2 t) = sub2 t := by
  have H : ∀ n, ∀ t : List Char, t.length = n → sub1 t = t → sub1 (sub2 t) = sub2 t := by
    intro n
    induction n using Nat.strong_induction_on with
    | _ n ih =>
      intro t ht hfix
      subst ht
      cases t with
      | nil => simp [sub2_nil, sub1_nil]
      | cons c rest =>
        by_cases hp : patP.isPrefixOf (c :: rest) = true
        · obtain ⟨t', ht'⟩ := ipo_exists hp
          rw [sub2_pos c rest hp]
          have hdrop : (c :: rest).drop patP.length = t' := by rw [ht', List.drop_left]
          rw [hdrop]
          have hfix' : sub1 t' = t' := by
            have hx := hfix
            rw [ht', sub1_append_no_colon patP t' patP_no_colon] at hx
            exact List.append_cancel_left hx
          have hlen : t'.length < (c :: rest).length := by
            have he : (c :: rest).length = patP.length + t'.length := by
              rw [ht']; simp
            have hp0 : 0 < patP.length := by decide
            omega
          rw [sub1_append_no_colon repQ _ repQ_no_colon,
            ih t'.length hlen t' rfl hfix']
        · have hp' : patP.isPrefixOf (c :: rest) = false := Bool.eq_false_iff.mpr hp
          rw [sub2_neg c rest hp']
          by_cases hc : c = ':'
          · subst hc
            rcases hdw : rest.dropWhile isPySpace with _ | ⟨m, rest2⟩
            · have hall := dropWhile_all hdw
              have hna : ∀ d ∈ rest, d ≠ 'a' :=
                fun d hd he => absurd (hall d hd) (by subst he; decide)
              rw [sub2_eq_self_of_no_a rest hna]
              exact hfix
            · by_cases hm : isMarker m = true
              · have hstep := sub1_colon_of_marker rest m rest2 hdw hm
                rw [hstep] at hfix
                have hrest : rest = '\n' :: ' ' :: m :: sub1 rest2 := by
                  injection hfix with _ h2
                  exact h2.symm
                have hdwm : rest.dropWhile isPySpace = m :: sub1 rest2 := by
                  rw [hrest, List.dropWhile_cons_of_pos (by decide),
                    List.dropWhile_cons_of_pos (by decide),
                    List.dropWhile_cons_of_neg (by simp [marker_not_space hm])]
                have hfix2 : sub1 rest2 = rest2 := by
                  rw [hdw] at hdwm
                  injection hdwm with _ h2
                  exact h2.symm
                rw [hfix2] at hrest
                have hsub2rest : sub2 rest = '\n' :: ' ' :: m :: sub2 rest2 := by
                  rw [hrest, sub2_cons_ne_a _ (by decide), sub2_cons_ne_a _ (by decide),
                    sub2_cons_ne_a _ (marker_ne_a hm)]
                rw [hsub2rest]
                have hdw2 : ('\n' :: ' ' :: m :: sub2 rest2).dropWhile isPySpace
                    = m :: sub2 rest2 := by
                  rw [List.dropWhile_cons_of_pos (by decide),
                    List.dropWhile_cons_of_pos (by decide),
                    List.dropWhile_cons_of_neg (by simp [marker_not_space hm])]
                rw [sub1_colon_of_marker _ m (sub2 rest2) hdw2 hm]
                have hlen2 : rest2.length < (':' :: rest).length := by
                  rw [hrest]
                  simp only [List.length_cons]
                  omega
                rw [ih rest2.length hlen2 rest2 rfl hfix2]
              · have hm' : isMarker m = false := by simpa using hm
                have hstep := sub1_colon_of_not_marker rest m rest2 hdw hm'
                rw [hstep] at hfix
                have hfixrest : sub1 rest = rest := by
                  have h2 := congrArg List.tail hfix
                  simpa using h2
                have hwall : ∀ d ∈ rest.takeWhile isPySpace, isPySpace d = true :=
                  fun d hd => List.mem_takeWhile_imp hd
                have hwna : ∀ d ∈ rest.takeWhile isPySpace, d ≠ 'a' :=
                  fun d hd he => absurd (hwall d hd) (by subst he; decide)
                obtain ⟨u, hu⟩ := sub2_cons_head m rest2
                have hsub2rest : sub2 rest = rest.takeWhile isPySpace ++ m :: u := by
                  conv_lhs => rw [← List.takeWhile_append_dropWhile isPySpace rest, hdw]
                  rw [sub2_append_no_a _ (m :: rest2) hwna, hu]
                have hmns : isPySpace m = false := dropWhile_head_false hdw
                have hdw2 : (sub2 rest).dropWhile isPySpace = m :: u := by
                  rw [hsub2rest, List.dropWhile_append_of_pos hwall,
                    List.dropWhile_cons_of_neg (by simp [hmns])]
                rw [sub1_colon_of_not_marker (sub2 rest) m u hdw2 hm',
                  ih rest.length (by simp) rest rfl hfixrest]
          · rw [sub1_cons_of_ne c rest hc] at hfix
            have hfixrest : sub1 rest = rest := by
              have h2 := congrArg List.tail hfix
              simpa using h2
            rw [sub1_cons_of_ne c (sub2 rest) hc,
              ih rest.length (by simp) rest rfl hfixrest]
  exact H t.length t rfl hfix

/-! Occurrence machinery for the literal pattern, and idempotence of `sub2`. -/

lemma sub2_of_not_containsP (l : List Char) (h : containsP l = false) : sub2 l = l := by
  induction l with
  | nil => exact sub2_nil
  | cons c rest ih =>
    rw [containsP] at h
    rcases Bool.or_eq_false_iff.mp h with ⟨h1, h2⟩
    rw [sub2_neg c rest h1, ih h2]

lemma hasMatch1_spec (l : List Char) (h : hasMatch1 l = false) : sub1 l = l := by
  induction l with
  | nil => exact sub1_nil
  | cons c rest ih =>
    rw [hasMatch1] at h
    rcases Bool.or_eq_false_iff.mp h with ⟨h1, h2⟩
    by_cases hc : c = ':'
    · subst hc
      simp only [beq_self_eq_true, Bool.true_and] at h1
      rcases hdw : rest.dropWhile isPySpace with _ | ⟨m, rest2⟩
      · rw [sub1_colon_of_nil rest hdw, ih h2]
      · rw [hdw] at h1
        rw [sub1_colon_of_not_marker rest m rest2 hdw h1, ih h2]
    · rw [sub1_cons_of_ne c rest hc, ih h2]

lemma containsP_append_of (u v : List Char)
    (hu : ∀ w ∈ u.tails, w = [] ∨ (w.isPrefixOf patP = false ∧ patP.isPrefixOf w = false))
    (hv : containsP v = false) : containsP (u ++ v) = false := by
  induction u with
  | nil => simpa using hv
  | cons c u ih =>
    rw [List.cons_append, containsP]
    have hw := hu (c :: u) (by rw [List.tails_cons]; exact List.mem_cons_self _ _)
    rcases hw with h | ⟨h1, h2⟩
    · exact absurd h (by simp)
    · have hfalse : patP.isPrefixOf (c :: (u ++ v)) = false := by
        have hx := ipo_append_false (c :: u) v patP h2 h1
        rwa [List.cons_append] at hx
      rw [hfalse, Bool.false_or]
      exact ih (fun w hw => hu w (by rw [List.tails_cons]; exact List.mem_cons_of_mem _ hw))

lemma repQ_tails_ok :
    ∀ w ∈ repQ.tails, w = [] ∨ (w.isPrefixOf patP = false ∧ patP.isPrefixOf w = false) := by
  decide

lemma tails_mem_tail {d : Char} {w2 l : List Char} (h : (d :: w2) ∈ l.tails) :
    w2 ∈ l.tails := by
  rw [List.mem_tails] at h ⊢
  exact (List.suffix_cons d w2).trans h

lemma patP_tail_tails_not_repQ :
    ∀ w ∈ patP.tail.tails, w ≠ [] → w.isPrefixOf repQ = false := by
  decide

lemma patP_tail_tails_len : ∀ w ∈ patP.tail.tails, w.length ≤ repQ.length := by
  decide

/-- Occurrences of the pattern tail in the output of `sub2` were already
present in its input: the replacement cannot give rise to new ones. -/
lemma tail_prefix_sub2 (r : List Char) :
    ∀ w ∈ patP.tail.tails, w ≠ [] → w.isPrefixOf (sub2 r) = true →
      w.isPrefixOf r = true := by
  have H : ∀ n, ∀ r : List Char, r.length = n → ∀ w ∈ patP.tail.tails, w ≠ [] →
      w.isPrefixOf (sub2 r) = true → w.isPrefixOf r = true := by
    intro n
    induction n using Nat.strong_induction_on with
    | _ n ih =>
      intro r hr w hwt hwne hpre
      subst hr
      cases r with
      | nil =>
        rw [sub2_nil] at hpre
        cases w with
        | nil => exact absurd rfl hwne
        | cons a w => simp [List.isPrefixOf] at hpre
      | cons c rest =>
        by_cases hp : patP.isPrefixOf (c :: rest) = true
        · rw [sub2_pos c rest hp,
            ipo_append_left w repQ _ (patP_tail_tails_len w hwt)] at hpre
          rw [patP_tail_tails_not_repQ w hwt hwne] at hpre
          cases hpre
        · rw [sub2_neg c rest (Bool.eq_false_iff.mpr hp)] at hpre
          cases w with
          | nil => exact absurd rfl hwne
          | cons d w2 =>
            simp only [List.isPrefixOf, Bool.and_eq_true, beq_iff_eq] at hpre ⊢
            obtain ⟨hdc, hpre2⟩ := hpre
            refine ⟨hdc, ?_⟩
            cases w2 with
            | nil => simp [List.isPrefixOf]
            | cons e w3 =>
              exact ih rest.length (by simp) rest rfl (e :: w3) (tails_mem_tail hwt)
                (by simp) hpre2
  exact H r.length r rfl

/-- The output of `sub2` contains no occurrence of the pattern. -/
lemma containsP_sub2 (s : List Char) : containsP (sub2 s) = false := by
  have H : ∀ n, ∀ s : List Char, s.length = n → containsP (sub2 s) = false := by
    intro n
    induction n using Nat.strong_induction_on with
    | _ n ih =>
      intro s hs
      subst hs
      cases s with
      | nil => rw [sub2_nil, containsP]
      | cons c rest =>
        by_cases hp : patP.isPrefixOf (c :: rest) = true
        · obtain ⟨t', ht'⟩ := ipo_exists hp
          rw [sub2_pos c rest hp]
          have hdrop : (c :: rest).drop patP.length = t' := by rw [ht', List.drop_left]
          rw [hdrop]
          have hlen : t'.length < (c :: rest).length := by
            have he : (c :: rest).length = patP.length + t'.length := by rw [ht']; simp
            have hp0 : 0 < patP.length := by decide
            omega
          exact containsP_append_of repQ _ repQ_tails_ok (ih t'.length hlen t' rfl)
        · rw [sub2_neg c rest (Bool.eq_false_iff.mpr hp), containsP]
          have h2 := ih rest.length (by simp) rest rfl
          have h1 : patP.isPrefixOf (c :: sub2 rest) = false := by
            cases hval : patP.isPrefixOf (c :: sub2 rest) with
            | false => rfl
            | true =>
              rw [patP_head] at hval
              simp only [List.isPrefixOf, Bool.and_eq_true, beq_iff_eq] at hval
              obtain ⟨hac, htail⟩ := hval
              have hmem : patP.tail ∈ patP.tail.tails := by
                rw [List.mem_tails]
              have hback := tail_prefix_sub2 rest patP.tail hmem (by decide) htail
              have : patP.isPrefixOf (c :: rest) = true := by
                rw [patP_head]
                simp only [List.isPrefixOf, Bool.and_eq_true, beq_iff_eq]
                exact ⟨hac, hback⟩
              exact absurd this hp
          simp [h1, h2]
  exact H s.length s rfl

/-- The second substitution of `cleanup_md_string` is idempotent. -/
theorem sub2_idem (s : List Char) : sub2 (sub2 s) = sub2 s :=
  sub2_of_not_containsP _ (containsP_sub2 s)

/-! Datamodel and the `to_type_pretty_name` filter. -/

/-- Modelled from the spec: the `PropertyType` enumeration imported from
`..datamodel` (whose source file is not part of this tree): STRING, INTEGER,
FLOAT, BOOL, DICT. -/
inductive PropertyType
  | STRING
  | INTEGER
  | FLOAT
  | BOOL
  | DICT
deriving DecidableEq

/-- A declaration-type value as received by the `to_type_pretty_name` filter:
either one of the enumerated `PropertyType` members, or a value outside the
enumeration (in Python any object could reach the filter). -/
inductive PropValue
  | pt (p : PropertyType)
  | unknown (n : Nat)
deriving DecidableEq

/-- The errors the embedded code paths can raise: `TypeError` (raised by
`to_type_pretty_name` on DICT), `KeyError` (a failed dictionary subscript),
and `jinja2.TemplateNotFound` (raised by `env.get_template`). -/
inductive PyError
  | typeError (msg : String)
  | keyError
  | templateNotFound (path : String)
deriving DecidableEq

/-- The `type_map` dictionary of `_install_custom_filters`. -/
def type_map : List (PropValue × String) :=
  [(.pt .STRING, "string"), (.pt .INTEGER, "integer"), (.pt .FLOAT, "float"),
   (.pt .BOOL, "boolean"), (.pt .DICT, "dict")]

/-- The `to_type_pretty_name` filter: raises `TypeError` on DICT before the
lookup, otherwise subscripts `type_map` (a value missing from the dictionary
raises `KeyError`, as a Python dict subscript does). -/
def to_type_pretty_name (declaration_type : PropValue) : Except PyError String :=
  if declaration_type = .pt .DICT then
    .error (.typeError "Dictionary types are not yet supported as trait properties")
  else
    match type_map.lookup declaration_type with
    | some s => .ok s
    | none => .error .keyError

/-! The `generate` entry point, modelled as an event trace. -/

/-- Modelled from the spec: a package declaration as consumed by `generate`:
an `id`, and the optional `traits` / `specifications` attributes, each a list
of namespace objects (opaque to this generator, so their type is a
parameter). `none` models the attribute being absent or `None`, matching
`getattr(package_declaration, kind, None)`. -/
structure PackageDeclaration (Ns : Type) where
  id : String
  traits : Option (List Ns)
  specifications : Option (List Ns)
deriving DecidableEq

/-- Python truthiness of the `namespaces` value tested by `if namespaces:` in
`generate`: true iff the attribute is present and the list is non-empty. -/
def truthy {Ns : Type} : Option (List Ns) → Bool
  | some (_ :: _) => true
  | _ => false

/-- The dictionary of variables passed to a template render: the listing
templates receive `package` and `namespaces`; the index template receives
`package`, `trait_namespaces` and `specification_namespaces`. -/
inductive RenderVars (Ns : Type)
  | listing (package : PackageDeclaration Ns) (namespaces : List Ns)
  | index (package : PackageDeclaration Ns) (trait_namespaces : List Ns)
      (specification_namespaces : List Ns)
deriving DecidableEq

/-- One observable step of `generate`: a directory creation
(`os.makedirs(..., exist_ok=True)`), a creation-callback invocation, a
template lookup (`env.get_template`), a render call (`template.render`,
recording the variables passed), or a file write (mode `"w"`: full
overwrite). -/
inductive Event (Ns : Type)
  | makeDirs (path : String)
  | callback (path : String)
  | getTemplate (path : String)
  | renderCall (path : String) (vars : RenderVars Ns)
  | writeFile (path : String) (content : String)
deriving DecidableEq

/-- A template as served by the Jinja environment; rendering may raise (for
example when a filter such as `to_type_pretty_name` fails on unsupported
data). -/
def Template (Ns : Type) : Type := RenderVars Ns → Except PyError String

/-- The bundled template set behind the environment built by
`_create_jinja_env` (globals already merged, filters installed): what
`env.get_template` resolves for a logical path, `none` meaning it raises
`jinja2.TemplateNotFound`. Template sources are external package data, so
they are a parameter of the embedding. -/
def TemplateSet (Ns : Type) : Type := String → Option (Template Ns)

/-- `os.path.join` for the POSIX-style relative paths this generator
builds. -/
def joinPath (a b : String) : String := a ++ ("/" ++ b)

/-- The logical template path `markdown/<name>.md.in` used by
`render_template` (Jinja assumes `/` on all platforms). -/
def templateLogicalPath (name : String) : String := "markdown/" ++ name ++ ".md.in"

/-- The inner `render_template` convenience of `generate`: look the template
up, render it with the supplied variables, write the file, and invoke the
creation callback with the file's path. The first component is the ordered
trace of steps performed, the second the error raised (if any). -/
def render_template {Ns : Type} (templates : TemplateSet Ns) (name path : String)
    (vs : RenderVars Ns) : List (Event Ns) × Option PyError :=
  match templates (templateLogicalPath name) with
  | none => ([.getTemplate (templateLogicalPath name)],
      some (.templateNotFound (templateLogicalPath name)))
  | some t =>
    match t vs with
    | .error e => ([.getTemplate (templateLogicalPath name),
        .renderCall (templateLogicalPath name) vs], some e)
    | .ok content => ([.getTemplate (templateLogicalPath name),
        .renderCall (templateLogicalPath name) vs,
        .writeFile path content, .callback path], none)

/-- The path of the output subdirectory created by `generate`:
`os.path.join(output_directory, f"{package_declaration.id}-md")`. -/
def outputDirPath {Ns : Type} (package_declaration : PackageDeclaration Ns)
    (output_directory : String) : String :=
  joinPath output_directory (package_declaration.id ++ "-md")

/-- The trace of `create_dir_with_path_components` in `generate`: the
directory is created (`exist_ok=True`) and the creation callback is invoked
with its path, unconditionally. -/
def dirEvts {Ns : Type} (package_declaration : PackageDeclaration Ns)
    (output_directory : String) : List (Event Ns) :=
  [.makeDirs (outputDirPath package_declaration output_directory),
   .callback (outputDirPath package_declaration output_directory)]

/-- One iteration of the `for kind in ("traits", "specifications")` loop in
`generate`: if the attribute value is truthy, render the listing template for
that kind into `<dir>/<kind>.md` with variables `package` and `namespaces`;
otherwise do nothing. -/
def listingStep {Ns : Type} (templates : TemplateSet Ns)
    (package_declaration : PackageDeclaration Ns) (dir : String) (kind : String)
    (namespaces : Option (List Ns)) : List (Event Ns) × Option PyError :=
  if truthy namespaces then
    render_template templates kind (joinPath dir (kind ++ ".md"))
      (.listing package_declaration (namespaces.getD []))
  else ([], none)

/-- The namespace list gathered by the loop for one kind: the attribute's
list if it was truthy (the `extend` only runs inside the truthy branch),
otherwise the initial empty list. -/
def gatherNs {Ns : Type} (namespaces : Option (List Ns)) : List Ns :=
  if truthy namespaces then namespaces.getD [] else []

/-- The final render of `generate`: the index template, rendered into
`<dir>/index.md` with variables `package`, `trait_namespaces` and
`specification_namespaces`. -/
def indexStep {Ns : Type} (templates : TemplateSet Ns)
    (package_declaration : PackageDeclaration Ns) (dir : String) :
    List (Event Ns) × Option PyError :=
  render_template templates "index" (joinPath dir "index.md")
    (.index package_declaration (gatherNs package_declaration.traits)
      (gatherNs package_declaration.specifications))

/-- The `generate` entry point of `markdown.py`, as the ordered trace of the
filesystem and template operations it performs, paired with the error it
propagates (if any): create the output subdirectory `<id>-md` and report it
to the callback; for each kind in (`traits`, `specifications`) whose
attribute is truthy, gather its namespaces and render the listing; then
render the index. No error is caught: a failure ends the trace there and is
returned unmodified. -/
def generate {Ns : Type} (package_declaration : PackageDeclaration Ns)
    (templates : TemplateSet Ns) (output_directory : String) :
    List (Event Ns) × Option PyError :=
  match listingStep templates package_declaration
      (outputDirPath package_declaration output_directory) "traits"
      package_declaration.traits with
  | (e1, some err) => (dirEvts package_declaration output_directory ++ e1, some err)
  | (e1, none) =>
    match listingStep templates package_declaration
        (outputDirPath package_declaration output_directory) "specifications"
        package_declaration.specifications with
    | (e2, some err) =>
        (dirEvts package_declaration output_directory ++ e1 ++ e2, some err)
    | (e2, none) =>
        (dirEvts package_declaration output_directory ++ e1 ++ e2 ++
          (indexStep templates package_declaration
            (outputDirPath package_declaration output_directory)).1,
         (indexStep templates package_declaration
            (outputDirPath package_declaration output_directory)).2)

/-! Filesystem model: applying a trace to file contents and to the set of
directories. -/

/-- Applying one event to a filesystem modelled as a partial map from path to
file content: only `writeFile` changes contents, fully overwriting. -/
def applyEvent {Ns : Type} (fs : String → Option String) : Event Ns → (String → Option String)
  | .writeFile path content => fun p => if p = path then some content else fs p
  | _ => fs

/-- Applying a trace of events to file contents, in order. -/
def applyEvents {Ns : Type} (fs : String → Option String) (evts : List (Event Ns)) :
    String → Option String :=
  evts.foldl applyEvent fs

/-- Applying one event to the set of existing directories:
`os.makedirs(path, exist_ok=True)` creates the directory if absent and is a
no-op (not an error) if it already exists. -/
def applyDirEvent {Ns : Type} (dirs : List String) : Event Ns → List String
  | .makeDirs path => if path ∈ dirs then dirs else dirs ++ [path]
  | _ => dirs

/-- Applying a trace of events to the set of existing directories. -/
def applyDirEvents {Ns : Type} (dirs : List String) (evts : List (Event Ns)) : List String :=
  evts.foldl applyDirEvent dirs

/-- The content written by the last `writeFile` to `p` in the trace, if
any. -/
def lastWrite {Ns : Type} (evts : List (Event Ns)) (p : String) : Option String :=
  match evts with
  | [] => none
  | ev :: rest =>
    match lastWrite rest p with
    | some c => some c
    | none =>
      match ev with
      | .writeFile q c => if p = q then some c else none
      | _ => none

/-! Lemmas about the filesystem model and the step helpers. -/

lemma applyEvents_eq {Ns : Type} (evts : List (Event Ns)) (fs : String → Option String)
    (p : String) :
    applyEvents fs evts p =
      match lastWrite evts p with
      | some c => some c
      | none => fs p := by
  induction evts generalizing fs with
  | nil => rfl
  | cons ev rest ih =>
    have hstep : applyEvents fs (ev :: rest) = applyEvents (applyEvent fs ev) rest := rfl
    rw [hstep, ih]
    cases hlw : lastWrite rest p with
    | some c => simp [lastWrite, hlw]
    | none =>
      cases ev with
      | writeFile q c =>
        simp only [lastWrite, hlw, applyEvent]
        by_cases hpq : p = q
        · simp [hpq]
        · simp [hpq]
      | makeDirs q => simp [lastWrite, hlw, applyEvent]
      | callback q => simp [lastWrite, hlw, applyEvent]
      | getTemplate q => simp [lastWrite, hlw, applyEvent]
      | renderCall q v => simp [lastWrite, hlw, applyEvent]

/-- Replaying any event trace over its own result changes nothing: every
write fully overwrites, and the last write to each path wins. -/
lemma applyEvents_replay {Ns : Type} (evts : List (Event Ns)) (fs : String → Option String) :
    applyEvents (applyEvents fs evts) evts = applyEvents fs evts := by
  funext p
  have h1 := applyEvents_eq evts (applyEvents fs evts) p
  have h2 := applyEvents_eq evts fs p
  rw [h1, h2]
  cases hlw : lastWrite evts p with
  | some c => simp [hlw]
  | none => simp [hlw, h2]

lemma applyDirEvent_makeDirs_self {Ns : Type} (dirs : List String) (p : String) :
    @applyDirEvent Ns (@applyDirEvent Ns dirs (Event.makeDirs p)) (Event.makeDirs p) =
      @applyDirEvent Ns dirs (Event.makeDirs p) := by
  by_cases h : p ∈ dirs
  · simp [applyDirEvent, h]
  · simp [applyDirEvent, h]

/-! Equation lemmas for `render_template`, `listingStep` and `generate`. -/

lemma render_template_lookup_fail {Ns : Type} (templates : TemplateSet Ns)
    (name path : String) (vs : RenderVars Ns)
    (hl : templates (templateLogicalPath name) = none) :
    render_template templates name path vs =
      ([.getTemplate (templateLogicalPath name)],
        some (.templateNotFound (templateLogicalPath name))) := by
  unfold render_template
  rw [hl]

lemma render_template_render_fail {Ns : Type} (templates : TemplateSet Ns)
    (name path : String) (vs : RenderVars Ns) (t : Template Ns) (e : PyError)
    (hl : templates (templateLogicalPath name) = some t) (hr : t vs = Except.error e) :
    render_template templates name path vs =
      ([.getTemplate (templateLogicalPath name),
        .renderCall (templateLogicalPath name) vs], some e) := by
  unfold render_template
  simp only [hl, hr]

lemma render_template_ok {Ns : Type} (templates : TemplateSet Ns)
    (name path : String) (vs : RenderVars Ns) (t : Template Ns) (content : String)
    (hl : templates (templateLogicalPath name) = some t)
    (hr : t vs = Except.ok content) :
    render_template templates name path vs =
      ([.getTemplate (templateLogicalPath name),
        .renderCall (templateLogicalPath name) vs,
        .writeFile path content, .callback path], none) := by
  unfold render_template
  simp only [hl, hr]

lemma listingStep_falsy {Ns : Type} (templates : TemplateSet Ns)
    (package_declaration : PackageDeclaration Ns) (dir kind : String)
    (namespaces : Option (List Ns)) (h : truthy namespaces = false) :
    listingStep templates package_declaration dir kind namespaces = ([], none) := by
  unfold listingStep
  rw [h]
  rfl

lemma listingStep_truthy {Ns : Type} (templates : TemplateSet Ns)
    (package_declaration : PackageDeclaration Ns) (dir kind : String)
    (namespaces : Option (List Ns)) (h : truthy namespaces = true) :
    listingStep templates package_declaration dir kind namespaces =
      render_template templates kind (joinPath dir (kind ++ ".md"))
        (.listing package_declaration (namespaces.getD [])) := by
  unfold listingStep
  rw [h]
  rfl

/-! Path disjointness. -/

lemma string_append_cancel {s a b : String} (h : s ++ a = s ++ b) : a = b := by
  have hd := congrArg String.data h
  rw [String.data_append, String.data_append] at hd
  exact String.ext (List.append_cancel_left hd)

lemma self_ne_joinPath (a b : String) : a ≠ joinPath a b := by
  intro he
  have hlen := congrArg String.length he
  rw [joinPath, String.length_append, String.length_append] at hlen
  have h1 : ("/" : String).length = 1 := rfl
  omega

lemma joinPath_inj {a b c : String} (h : joinPath a b = joinPath a c) : b = c := by
  unfold joinPath at h
  exact string_append_cancel (string_append_cancel h)

lemma joinPath_ne {a b c : String} (h : b ≠ c) : joinPath a b ≠ joinPath a c :=
  fun he => h (joinPath_inj he)

/-! Inversion lemmas for the steps of `generate`. -/

lemma render_template_none_inv {Ns : Type} {templates : TemplateSet Ns}
    {name path : String} {vs : RenderVars Ns} {e : List (Event Ns)}
    (h : render_template templates name path vs = (e, none)) :
    ∃ t content, templates (templateLogicalPath name) = some t ∧
      t vs = Except.ok content ∧
      e = [.getTemplate (templateLogicalPath name),
        .renderCall (templateLogicalPath name) vs,
        .writeFile path content, .callback path] := by
  unfold render_template at h
  cases hl : templates (templateLogicalPath name) with
  | none =>
    simp only [hl] at h
    simp at h
  | some t =>
    simp only [hl] at h
    cases hr : t vs with
    | error err =>
      simp only [hr] at h
      simp at h
    | ok content =>
      simp only [hr, Prod.mk.injEq] at h
      exact ⟨t, content, rfl, hr, h.1.symm⟩

lemma listingStep_none_inv {Ns : Type} {templates : TemplateSet Ns}
    {package_declaration : PackageDeclaration Ns} {dir kind : String}
    {namespaces : Option (List Ns)} {e : List (Event Ns)}
    (h : listingStep templates package_declaration dir kind namespaces = (e, none)) :
    (truthy namespaces = false ∧ e = []) ∨
    (truthy namespaces = true ∧ ∃ t content,
      templates (templateLogicalPath kind) = some t ∧
      t (.listing package_declaration (namespaces.getD [])) = Except.ok content ∧
      e = [.getTemplate (templateLogicalPath kind),
        .renderCall (templateLogicalPath kind)
          (.listing package_declaration (namespaces.getD [])),
        .writeFile (joinPath dir (kind ++ ".md")) content,
        .callback (joinPath dir (kind ++ ".md"))]) := by
  cases ht : truthy namespaces with
  | false =>
    rw [listingStep_falsy _ _ _ _ _ ht] at h
    simp only [Prod.mk.injEq] at h
    exact Or.inl ⟨rfl, h.1.symm⟩
  | true =>
    rw [listingStep_truthy _ _ _ _ _ ht] at h
    obtain ⟨t, content, hl, hr, he⟩ := render_template_none_inv h
    exact Or.inr ⟨rfl, t, content, hl, hr, he⟩

/-- Case analysis of a `generate` run: either the traits listing fails, or it
succeeds and the specifications listing fails, or both succeed and the result
is the directory events, the two listing traces, and the index step. -/
lemma generate_cases {Ns : Type} (pkg : PackageDeclaration Ns) (tpl : TemplateSet Ns)
    (out : String) :
    (∃ e1 err, listingStep tpl pkg (outputDirPath pkg out) "traits" pkg.traits
        = (e1, some err) ∧
      generate pkg tpl out = (dirEvts pkg out ++ e1, some err)) ∨
    (∃ e1 e2 err, listingStep tpl pkg (outputDirPath pkg out) "traits" pkg.traits
        = (e1, none) ∧
      listingStep tpl pkg (outputDirPath pkg out) "specifications" pkg.specifications
        = (e2, some err) ∧
      generate pkg tpl out = (dirEvts pkg out ++ e1 ++ e2, some err)) ∨
    (∃ e1 e2, listingStep tpl pkg (outputDirPath pkg out) "traits" pkg.traits
        = (e1, none) ∧
      listingStep tpl pkg (outputDirPath pkg out) "specifications" pkg.specifications
        = (e2, none) ∧
      generate pkg tpl out = (dirEvts pkg out ++ e1 ++ e2 ++
          (indexStep tpl pkg (outputDirPath pkg out)).1,
        (indexStep tpl pkg (outputDirPath pkg out)).2)) := by
  unfold generate
  rcases hs1 : listingStep tpl pkg (outputDirPath pkg out) "traits" pkg.traits
    with ⟨e1, o1⟩
  cases o1 with
  | some err =>
    refine Or.inl ⟨e1, err, rfl, ?_⟩
    simp [hs1]
  | none =>
    rcases hs2 : listingStep tpl pkg (outputDirPath pkg out) "specifications"
        pkg.specifications with ⟨e2, o2⟩
    cases o2 with
    | some err =>
      refine Or.inr (Or.inl ⟨e1, e2, err, rfl, rfl, ?_⟩)
      simp [hs1, hs2]
    | none =>
      refine Or.inr (Or.inr ⟨e1, e2, rfl, rfl, ?_⟩)
      simp [hs1, hs2]

lemma render_template_some_inv {Ns : Type} {templates : TemplateSet Ns}
    {name path : String} {vs : RenderVars Ns} {e : List (Event Ns)} {err : PyError}
    (h : render_template templates name path vs = (e, some err)) :
    (templates (templateLogicalPath name) = none ∧
      err = .templateNotFound (templateLogicalPath name) ∧
      e = [.getTemplate (templateLogicalPath name)]) ∨
    (∃ t, templates (templateLogicalPath name) = some t ∧ t vs = Except.error err ∧
      e = [.getTemplate (templateLogicalPath name),
        .renderCall (templateLogicalPath name) vs]) := by
  unfold render_template at h
  cases hl : templates (templateLogicalPath name) with
  | none =>
    simp only [hl, Prod.mk.injEq] at h
    rcases h with ⟨he, herr⟩
    injection herr with herr
    exact Or.inl ⟨rfl, herr.symm, he.symm⟩
  | some t =>
    simp only [hl] at h
    cases hr : t vs with
    | error err2 =>
      simp only [hr, Prod.mk.injEq] at h
      rcases h with ⟨he, herr⟩
      injection herr with herr
      exact Or.inr ⟨t, rfl, by rw [hr, herr], he.symm⟩
    | ok content =>
      simp only [hr, Prod.mk.injEq] at h
      simp at h

lemma listingStep_some_inv {Ns : Type} {templates : TemplateSet Ns}
    {package_declaration : PackageDeclaration Ns} {dir kind : String}
    {namespaces : Option (List Ns)} {e : List (Event Ns)} {err : PyError}
    (h : listingStep templates package_declaration dir kind namespaces = (e, some err)) :
    truthy namespaces = true ∧
    render_template templates kind (joinPath dir (kind ++ ".md"))
      (.listing package_declaration (namespaces.getD [])) = (e, some err) := by
  cases ht : truthy namespaces with
  | false =>
    rw [listingStep_falsy _ _ _ _ _ ht] at h
    simp at h
  | true =>
    rw [listingStep_truthy _ _ _ _ _ ht] at h
    exact ⟨rfl, h⟩

lemma render_template_event_inv {Ns : Type} {templates : TemplateSet Ns}
    {name path : String} {vs : RenderVars Ns} {e : List (Event Ns)} {o : Option PyError}
    (h : render_template templates name path vs = (e, o)) :
    (∀ p vs2, Event.renderCall p vs2 ∈ e → p = templateLogicalPath name ∧ vs2 = vs) ∧
    (∀ p c, Event.writeFile p c ∈ e → p = path) ∧
    (∀ p, Event.getTemplate p ∈ e → p = templateLogicalPath name) ∧
    (∀ p, Event.callback p ∈ e → p = path) ∧
    (∀ p, Event.makeDirs p ∈ e → False) := by
  unfold render_template at h
  cases hl : templates (templateLogicalPath name) with
  | none =>
    simp only [hl, Prod.mk.injEq] at h
    rw [← h.1]
    refine ⟨?_, ?_, ?_, ?_, ?_⟩ <;> intro p <;> simp
  | some t =>
    simp only [hl] at h
    cases hr : t vs with
    | error err2 =>
      simp only [hr, Prod.mk.injEq] at h
      rw [← h.1]
      refine ⟨?_, ?_, ?_, ?_, ?_⟩ <;> intro p <;> simp
    | ok content =>
      simp only [hr, Prod.mk.injEq] at h
      rw [← h.1]
      refine ⟨?_, ?_, ?_, ?_, ?_⟩ <;> intro p <;> simp

lemma listingStep_event_inv {Ns : Type} {templates : TemplateSet Ns}
    {package_declaration : PackageDeclaration Ns} {dir kind : String}
    {namespaces : Option (List Ns)} {e : List (Event Ns)} {o : Option PyError}
    (h : listingStep templates package_declaration dir kind namespaces = (e, o)) :
    (∀ p vs2, Event.renderCall p vs2 ∈ e → p = templateLogicalPath kind ∧
      vs2 = RenderVars.listing package_declaration (namespaces.getD [])) ∧
    (∀ p c, Event.writeFile p c ∈ e → p = joinPath dir (kind ++ ".md")) ∧
    (∀ p, Event.getTemplate p ∈ e → p = templateLogicalPath kind) ∧
    (∀ p, Event.callback p ∈ e → p = joinPath dir (kind ++ ".md")) ∧
    (∀ p, Event.makeDirs p ∈ e → False) := by
  cases ht : truthy namespaces with
  | false =>
    rw [listingStep_falsy _ _ _ _ _ ht] at h
    simp only [Prod.mk.injEq] at h
    rw [← h.1]
    refine ⟨?_, ?_, ?_, ?_, ?_⟩ <;> intro p <;> simp
  | true =>
    rw [listingStep_truthy _ _ _ _ _ ht] at h
    exact render_template_event_inv h

/-- The trace of a successful `generate` run, explicitly: the directory
events, a four-event render block per truthy listing kind, and the index
render block, in that order. -/
lemma generate_ok_trace {Ns : Type} (pkg : PackageDeclaration Ns) (tpl : TemplateSet Ns)
    (out : String) (h : (generate pkg tpl out).2 = none) :
    ∃ c1 c2 c3, (generate pkg tpl out).1 =
      dirEvts pkg out ++
      (if truthy pkg.traits then
        [Event.getTemplate (templateLogicalPath "traits"),
         Event.renderCall (templateLogicalPath "traits")
           (.listing pkg (pkg.traits.getD [])),
         Event.writeFile (joinPath (outputDirPath pkg out) "traits.md") c1,
         Event.callback (joinPath (outputDirPath pkg out) "traits.md")]
       else []) ++
      (if truthy pkg.specifications then
        [Event.getTemplate (templateLogicalPath "specifications"),
         Event.renderCall (templateLogicalPath "specifications")
           (.listing pkg (pkg.specifications.getD [])),
         Event.writeFile (joinPath (outputDirPath pkg out) "specifications.md") c2,
         Event.callback (joinPath (outputDirPath pkg out) "specifications.md")]
       else []) ++
      [Event.getTemplate (templateLogicalPath "index"),
       Event.renderCall (templateLogicalPath "index")
         (.index pkg (gatherNs pkg.traits) (gatherNs pkg.specifications)),
       Event.writeFile (joinPath (outputDirPath pkg out) "index.md") c3,
       Event.callback (joinPath (outputDirPath pkg out) "index.md")] := by
  have hmd1 : ("traits" ++ ".md" : String) = "traits.md" := rfl
  have hmd2 : ("specifications" ++ ".md" : String) = "specifications.md" := rfl
  rcases generate_cases pkg tpl out with ⟨e1, err, hs1, hg⟩ | ⟨e1, e2, err, hs1, hs2, hg⟩ |
    ⟨e1, e2, hs1, hs2, hg⟩
  · rw [hg] at h
    simp at h
  · rw [hg] at h
    simp at h
  · rcases hidx : indexStep tpl pkg (outputDirPath pkg out) with ⟨e3, o3⟩
    have hg2 : generate pkg tpl out = (dirEvts pkg out ++ e1 ++ e2 ++ e3, o3) := by
      rw [hg, hidx]
    rw [hg2] at h
    have ho3 : o3 = none := h
    subst ho3
    have hidx2 : render_template tpl "index"
        (joinPath (outputDirPath pkg out) "index.md")
        (.index pkg (gatherNs pkg.traits) (gatherNs pkg.specifications)) = (e3, none) := by
      rw [← hidx]
      rfl
    obtain ⟨t3, c3, _, _, he3⟩ := render_template_none_inv hidx2
    rcases listingStep_none_inv hs1 with ⟨ht1, he1⟩ | ⟨ht1, t1, c1, _, _, he1⟩ <;>
      rcases listingStep_none_inv hs2 with ⟨ht2, he2⟩ | ⟨ht2, t2, c2, _, _, he2⟩
    · exact ⟨"", "", c3, by rw [hg2, he1, he2, he3, ht1, ht2]; simp⟩
    · exact ⟨"", c2, c3, by rw [hg2, he1, he2, he3, ht1, ht2, hmd2]; simp⟩
    · exact ⟨c1, "", c3, by rw [hg2, he1, he2, he3, ht1, ht2, hmd1]; simp⟩
    · exact ⟨c1, c2, c3, by rw [hg2, he1, he2, he3, ht1, ht2, hmd1, hmd2]; simp⟩

/-- The sequence of paths passed to the creation callback, in invocation
order. -/
def cbPaths {Ns : Type} (evts : List (Event Ns)) : List String :=
  evts.filterMap (fun e => match e with | .callback p => some p | _ => none)

/-! Concrete inputs used by the witnesses below. -/

/-- A template set whose templates all exist and render successfully. -/
def tplOK : TemplateSet Nat := fun _ => some (fun _ => Except.ok "content")

/-- A template set with no templates: every lookup fails. -/
def tplNone : TemplateSet Nat := fun _ => none

/-- A package declaration with both namespace kinds present and non-empty. -/
def pkgBoth : PackageDeclaration Nat := ⟨"pkg", some [1], some [2]⟩

/-! Claim theorems. -/

/-- C3: `to_type_pretty_name` maps STRING to "string", INTEGER to "integer",
FLOAT to "float" and BOOL to "boolean"; on DICT it raises a TypeError
instead of returning (the `type_map` entry for DICT is unreachable); and a
value outside the enumeration fails with the KeyError of the failed
`type_map` subscript rather than silently returning a default. -/
theorem C3_to_type_pretty_name :
    to_type_pretty_name (.pt .STRING) = .ok "string" ∧
    to_type_pretty_name (.pt .INTEGER) = .ok "integer" ∧
    to_type_pretty_name (.pt .FLOAT) = .ok "float" ∧
    to_type_pretty_name (.pt .BOOL) = .ok "boolean" ∧
    to_type_pretty_name (.pt .DICT) =
      .error (.typeError "Dictionary types are not yet supported as trait properties") ∧
    ∀ n : Nat, to_type_pretty_name (.unknown n) = .error .keyError :=
  ⟨rfl, rfl, rfl, rfl, rfl, fun _ => rfl⟩

/-- Witness for C3 at the concrete unknown value 0. -/
theorem C3_witness : to_type_pretty_name (.unknown 0) = .error .keyError :=
  C3_to_type_pretty_name.2.2.2.2.2 0

/-- C4: `cleanup_md_string` is exactly the two substitutions applied in
sequence: first every occurrence of a colon, optional whitespace and a
literal `-` or `*` becomes the colon, a line break, one space and the
marker; second every occurrence of the seq003 literal is patched; both are
no-ops on strings without a match, and nothing else is transformed. -/
theorem C4_cleanup_md_string :
    (∀ s : String, cleanup_md_string s = (sub2 (sub1 s.toList)).asString) ∧
    cleanup_md_string "Notes: - item one" = "Notes:\n - item one" ∧
    cleanup_md_string "asset - `\"seq003\"`" = "asset\n- `\"seq003\"`" ∧
    (∀ l : List Char, hasMatch1 l = false → sub1 l = l) ∧
    (∀ l : List Char, containsP l = false → sub2 l = l) :=
  ⟨fun _ => rfl, by decide, by decide, hasMatch1_spec, sub2_of_not_containsP⟩

/-- Witness for C4: the first example, and both no-op clauses discharged on
the concrete match-free string "plain text". -/
theorem C4_witness :
    cleanup_md_string "Notes: - item one" = "Notes:\n - item one" ∧
    sub1 ("plain text").toList = ("plain text").toList ∧
    sub2 ("plain text").toList = ("plain text").toList :=
  ⟨C4_cleanup_md_string.2.1,
   C4_cleanup_md_string.2.2.2.1 _ (by decide),
   C4_cleanup_md_string.2.2.2.2 _ (by decide)⟩

/-- C10: `cleanup_md_string` is idempotent: the inserted text re-matches the
first pattern but is replaced by itself, the second substitution's output
contains no further occurrence of its pattern, and neither substitution's
output creates a match for the other. -/
theorem C10_cleanup_idem (s : String) :
    cleanup_md_string (cleanup_md_string s) = cleanup_md_string s := by
  show (sub2 (sub1 ((sub2 (sub1 s.toList)).asString).toList)).asString = _
  have hrt : ((sub2 (sub1 s.toList)).asString).toList = sub2 (sub1 s.toList) := rfl
  rw [hrt, sub1_sub2_fixed (sub1 s.toList) (sub1_idem s.toList), sub2_idem]
  rfl

/-- Witness for C10 at a concrete string containing a match. -/
theorem C10_witness :
    cleanup_md_string (cleanup_md_string "a: - b") = cleanup_md_string "a: - b" :=
  C10_cleanup_idem "a: - b"

/-- C1: on a run of `generate` that raises no error, `traits.md` is written
iff the package's `traits` attribute is present and non-empty,
`specifications.md` iff `specifications` is, and `index.md` is always
written — last: its write and callback are the final events of the trace. -/
theorem C1_listings_iff_index_last {Ns : Type} (pkg : PackageDeclaration Ns)
    (tpl : TemplateSet Ns) (out : String) (h : (generate pkg tpl out).2 = none) :
    ((∃ c, Event.writeFile (joinPath (outputDirPath pkg out) "traits.md") c
        ∈ (generate pkg tpl out).1) ↔ truthy pkg.traits = true) ∧
    ((∃ c, Event.writeFile (joinPath (outputDirPath pkg out) "specifications.md") c
        ∈ (generate pkg tpl out).1) ↔ truthy pkg.specifications = true) ∧
    (∃ c pre, (generate pkg tpl out).1
        = pre ++ [Event.writeFile (joinPath (outputDirPath pkg out) "index.md") c,
            Event.callback (joinPath (outputDirPath pkg out) "index.md")]) := by
  obtain ⟨c1, c2, c3, htr⟩ := generate_ok_trace pkg tpl out h
  have hne_ts : joinPath (outputDirPath pkg out) "traits.md"
      ≠ joinPath (outputDirPath pkg out) "specifications.md" := joinPath_ne (by decide)
  have hne_ti : joinPath (outputDirPath pkg out) "traits.md"
      ≠ joinPath (outputDirPath pkg out) "index.md" := joinPath_ne (by decide)
  have hne_st : joinPath (outputDirPath pkg out) "specifications.md"
      ≠ joinPath (outputDirPath pkg out) "traits.md" := joinPath_ne (by decide)
  have hne_si : joinPath (outputDirPath pkg out) "specifications.md"
      ≠ joinPath (outputDirPath pkg out) "index.md" := joinPath_ne (by decide)
  refine ⟨?_, ?_, ?_⟩
  · cases htt : truthy pkg.traits with
    | true =>
      simp only [eq_self_iff_true, iff_true]
      refine ⟨c1, ?_⟩
      rw [htr, htt]
      simp
    | false =>
      constructor
      · rintro ⟨c, hc⟩
        rw [htr, htt] at hc
        cases hts : truthy pkg.specifications <;> rw [hts] at hc <;>
          simp [dirEvts, hne_ts, hne_ti] at hc
      · intro hcon
        exact absurd hcon (by simp)
  · cases hts : truthy pkg.specifications with
    | true =>
      simp only [eq_self_iff_true, iff_true]
      refine ⟨c2, ?_⟩
      rw [htr, hts]
      simp
    | false =>
      constructor
      · rintro ⟨c, hc⟩
        rw [htr, hts] at hc
        cases htt : truthy pkg.traits <;> rw [htt] at hc <;>
          simp [dirEvts, hne_st, hne_si] at hc
      · intro hcon
        exact absurd hcon (by simp)
  · refine ⟨c3, dirEvts pkg out ++
      (if truthy pkg.traits then
        [Event.getTemplate (templateLogicalPath "traits"),
         Event.renderCall (templateLogicalPath "traits")
           (.listing pkg (pkg.traits.getD [])),
         Event.writeFile (joinPath (outputDirPath pkg out) "traits.md") c1,
         Event.callback (joinPath (outputDirPath pkg out) "traits.md")]
       else []) ++
      (if truthy pkg.specifications then
        [Event.getTemplate (templateLogicalPath "specifications"),
         Event.renderCall (templateLogicalPath "specifications")
           (.listing pkg (pkg.specifications.getD [])),
         Event.writeFile (joinPath (outputDirPath pkg out) "specifications.md") c2,
         Event.callback (joinPath (outputDirPath pkg out) "specifications.md")]
       else []) ++
      [Event.getTemplate (templateLogicalPath "index"),
       Event.renderCall (templateLogicalPath "index")
         (.index pkg (gatherNs pkg.traits) (gatherNs pkg.specifications))], ?_⟩
    rw [htr]
    simp

/-- Witness for C1 at a concrete successful run with both kinds non-empty. -/
theorem C1_witness :
    (generate pkgBoth tplOK "out").2 = none ∧
    ((∃ c, Event.writeFile (joinPath (outputDirPath pkgBoth "out") "traits.md") c
        ∈ (generate pkgBoth tplOK "out").1) ↔ truthy pkgBoth.traits = true) :=
  ⟨by decide, (C1_listings_iff_index_last pkgBoth tplOK "out" (by decide)).1⟩

/-- C2: on a run of `generate` that raises no error, the creation callback
receives exactly the created paths in creation order: the output
subdirectory, then `traits.md` (if rendered), then `specifications.md` (if
rendered), then `index.md`; with both kinds non-empty that is exactly four
invocations with no duplicates. -/
theorem C2_callback_order {Ns : Type} (pkg : PackageDeclaration Ns)
    (tpl : TemplateSet Ns) (out : String) (h : (generate pkg tpl out).2 = none) :
    cbPaths (generate pkg tpl out).1 =
      [outputDirPath pkg out] ++
      (if truthy pkg.traits then [joinPath (outputDirPath pkg out) "traits.md"] else []) ++
      (if truthy pkg.specifications then
        [joinPath (outputDirPath pkg out) "specifications.md"] else []) ++
      [joinPath (outputDirPath pkg out) "index.md"] ∧
    (truthy pkg.traits = true → truthy pkg.specifications = true →
      (cbPaths (generate pkg tpl out).1).length = 4 ∧
      (cbPaths (generate pkg tpl out).1).Nodup) := by
  obtain ⟨c1, c2, c3, htr⟩ := generate_ok_trace pkg tpl out h
  have hcb : cbPaths (generate pkg tpl out).1 =
      [outputDirPath pkg out] ++
      (if truthy pkg.traits then [joinPath (outputDirPath pkg out) "traits.md"] else []) ++
      (if truthy pkg.specifications then
        [joinPath (outputDirPath pkg out) "specifications.md"] else []) ++
      [joinPath (outputDirPath pkg out) "index.md"] := by
    rw [htr]
    cases htt : truthy pkg.traits <;> cases hts : truthy pkg.specifications <;>
      simp [cbPaths, dirEvts]
  refine ⟨hcb, fun htt hts => ?_⟩
  have hd_t : outputDirPath pkg out ≠ joinPath (outputDirPath pkg out) "traits.md" :=
    self_ne_joinPath _ _
  have hd_s : outputDirPath pkg out
      ≠ joinPath (outputDirPath pkg out) "specifications.md" := self_ne_joinPath _ _
  have hd_i : outputDirPath pkg out ≠ joinPath (outputDirPath pkg out) "index.md" :=
    self_ne_joinPath _ _
  have hne_ts : joinPath (outputDirPath pkg out) "traits.md"
      ≠ joinPath (outputDirPath pkg out) "specifications.md" := joinPath_ne (by decide)
  have hne_ti : joinPath (outputDirPath pkg out) "traits.md"
      ≠ joinPath (outputDirPath pkg out) "index.md" := joinPath_ne (by decide)
  have hne_si : joinPath (outputDirPath pkg out) "specifications.md"
      ≠ joinPath (outputDirPath pkg out) "index.md" := joinPath_ne (by decide)
  rw [hcb, htt, hts]
  constructor
  · simp
  · simp [hd_t, hd_s, hd_i, hne_ts, hne_ti, hne_si]

/-- Witness for C2 at a concrete successful run with both kinds non-empty:
four callback invocations, in order, no duplicates. -/
theorem C2_witness :
    (generate pkgBoth tplOK "out").2 = none ∧
    cbPaths (generate pkgBoth tplOK "out").1 =
      [outputDirPath pkgBoth "out"] ++
      (if truthy pkgBoth.traits then
        [joinPath (outputDirPath pkgBoth "out") "traits.md"] else []) ++
      (if truthy pkgBoth.specifications then
        [joinPath (outputDirPath pkgBoth "out") "specifications.md"] else []) ++
      [joinPath (outputDirPath pkgBoth "out") "index.md"] ∧
    (cbPaths (generate pkgBoth tplOK "out").1).length = 4 ∧
    (cbPaths (generate pkgBoth tplOK "out").1).Nodup :=
  ⟨by decide, (C2_callback_order pkgBoth tplOK "out" (by decide)).1,
   (C2_callback_order pkgBoth tplOK "out" (by decide)).2 (by decide) (by decide)⟩

/-- Every render call in a `generate` trace (successful or not) carries the
variables of exactly one of the three templates. -/
lemma generate_renderCall_inv {Ns : Type} (pkg : PackageDeclaration Ns)
    (tpl : TemplateSet Ns) (out : String) :
    ∀ p vs, Event.renderCall p vs ∈ (generate pkg tpl out).1 →
      (p = templateLogicalPath "traits" ∧
        vs = RenderVars.listing pkg (pkg.traits.getD [])) ∨
      (p = templateLogicalPath "specifications" ∧
        vs = RenderVars.listing pkg (pkg.specifications.getD [])) ∨
      (p = templateLogicalPath "index" ∧
        vs = RenderVars.index pkg (gatherNs pkg.traits) (gatherNs pkg.specifications)) := by
  intro p vs hmem
  rcases generate_cases pkg tpl out with ⟨e1, err, hs1, hg⟩ | ⟨e1, e2, err, hs1, hs2, hg⟩ |
    ⟨e1, e2, hs1, hs2, hg⟩
  · rw [hg] at hmem
    simp only [dirEvts, List.cons_append, List.nil_append, List.mem_cons] at hmem
    rcases hmem with hmem | hmem | hmem
    · exact absurd hmem (by simp)
    · exact absurd hmem (by simp)
    · exact Or.inl ((listingStep_event_inv hs1).1 p vs hmem)
  · rw [hg] at hmem
    simp only [dirEvts, List.cons_append, List.nil_append, List.append_assoc,
      List.mem_cons, List.mem_append] at hmem
    rcases hmem with hmem | hmem | hmem | hmem
    · exact absurd hmem (by simp)
    · exact absurd hmem (by simp)
    · exact Or.inl ((listingStep_event_inv hs1).1 p vs hmem)
    · exact Or.inr (Or.inl ((listingStep_event_inv hs2).1 p vs hmem))
  · rcases hidx : indexStep tpl pkg (outputDirPath pkg out) with ⟨e3, o3⟩
    have hrt : render_template tpl "index"
        (joinPath (outputDirPath pkg out) "index.md")
        (.index pkg (gatherNs pkg.traits) (gatherNs pkg.specifications)) = (e3, o3) := by
      rw [← hidx]
      rfl
    rw [hg, hidx] at hmem
    simp only [dirEvts, List.cons_append, List.nil_append, List.append_assoc,
      List.mem_cons, List.mem_append] at hmem
    rcases hmem with hmem | hmem | hmem | hmem | hmem
    · exact absurd hmem (by simp)
    · exact absurd hmem (by simp)
    · exact Or.inl ((listingStep_event_inv hs1).1 p vs hmem)
    · exact Or.inr (Or.inl ((listingStep_event_inv hs2).1 p vs hmem))
    · exact Or.inr (Or.inr ((render_template_event_inv hrt).1 p vs hmem))

/-- C5: every listing render receives exactly the variables `package` and
`namespaces` (the attribute's list), and the index render receives exactly
`package`, `trait_namespaces` and `specification_namespaces` — the gathered,
possibly empty, lists (never a missing value); when both attributes are
empty or absent, a successful run's index render receives two empty
lists. -/
theorem C5_render_variables {Ns : Type} (pkg : PackageDeclaration Ns)
    (tpl : TemplateSet Ns) (out : String) :
    (∀ vs, Event.renderCall (templateLogicalPath "traits") vs
        ∈ (generate pkg tpl out).1 →
      vs = RenderVars.listing pkg (pkg.traits.getD [])) ∧
    (∀ vs, Event.renderCall (templateLogicalPath "specifications") vs
        ∈ (generate pkg tpl out).1 →
      vs = RenderVars.listing pkg (pkg.specifications.getD [])) ∧
    (∀ vs, Event.renderCall (templateLogicalPath "index") vs
        ∈ (generate pkg tpl out).1 →
      vs = RenderVars.index pkg (gatherNs pkg.traits) (gatherNs pkg.specifications)) ∧
    ((generate pkg tpl out).2 = none →
      Event.renderCall (templateLogicalPath "index")
        (RenderVars.index pkg (gatherNs pkg.traits) (gatherNs pkg.specifications))
        ∈ (generate pkg tpl out).1) ∧
    (truthy pkg.traits = false → truthy pkg.specifications = false →
      (generate pkg tpl out).2 = none →
      Event.renderCall (templateLogicalPath "index") (RenderVars.index pkg [] [])
        ∈ (generate pkg tpl out).1) := by
  have hne_ts : templateLogicalPath "traits" ≠ templateLogicalPath "specifications" := by
    decide
  have hne_ti : templateLogicalPath "traits" ≠ templateLogicalPath "index" := by decide
  have hne_si : templateLogicalPath "specifications" ≠ templateLogicalPath "index" := by
    decide
  have hpos : (generate pkg tpl out).2 = none →
      Event.renderCall (templateLogicalPath "index")
        (RenderVars.index pkg (gatherNs pkg.traits) (gatherNs pkg.specifications))
        ∈ (generate pkg tpl out).1 := by
    intro h
    obtain ⟨c1, c2, c3, htr⟩ := generate_ok_trace pkg tpl out h
    rw [htr]
    simp
  refine ⟨?_, ?_, ?_, hpos, ?_⟩
  · intro vs hmem
    rcases generate_renderCall_inv pkg tpl out _ vs hmem with ⟨_, hv⟩ | ⟨hp, _⟩ | ⟨hp, _⟩
    · exact hv
    · exact absurd hp hne_ts
    · exact absurd hp hne_ti
  · intro vs hmem
    rcases generate_renderCall_inv pkg tpl out _ vs hmem with ⟨hp, _⟩ | ⟨_, hv⟩ | ⟨hp, _⟩
    · exact absurd hp.symm hne_ts
    · exact hv
    · exact absurd hp hne_si
  · intro vs hmem
    rcases generate_renderCall_inv pkg tpl out _ vs hmem with ⟨hp, _⟩ | ⟨hp, _⟩ | ⟨_, hv⟩
    · exact absurd hp.symm hne_ti
    · exact absurd hp.symm hne_si
    · exact hv
  · intro htt hts h
    have hg1 : gatherNs pkg.traits = ([] : List Ns) := by simp [gatherNs, htt]
    have hg2 : gatherNs pkg.specifications = ([] : List Ns) := by simp [gatherNs, hts]
    have := hpos h
    rwa [hg1, hg2] at this

/-- Witness for C5 at a concrete successful run. -/
theorem C5_witness :
    (generate pkgBoth tplOK "out").2 = none ∧
    Event.renderCall (templateLogicalPath "index")
      (RenderVars.index pkgBoth (gatherNs pkgBoth.traits)
        (gatherNs pkgBoth.specifications)) ∈ (generate pkgBoth tplOK "out").1 :=
  ⟨by decide, (C5_render_variables pkgBoth tplOK "out").2.2.2.1 (by decide)⟩

/-- C6: a failing `generate` run propagates the underlying error unmodified
(a missing template's TemplateNotFound, or the error a template render
raised), and the trace stops at the failing lookup or render: the failing
step's events are the last ones, so every file written before the failure
stays in the trace (no rollback) and no later step runs. -/
theorem C6_error_propagation {Ns : Type} (pkg : PackageDeclaration Ns)
    (tpl : TemplateSet Ns) (out : String) (e : PyError)
    (h : (generate pkg tpl out).2 = some e) :
    ∃ name, (name = "traits" ∨ name = "specifications" ∨ name = "index") ∧
      ((tpl (templateLogicalPath name) = none ∧
        e = PyError.templateNotFound (templateLogicalPath name) ∧
        (∃ pre, (generate pkg tpl out).1 =
          pre ++ [Event.getTemplate (templateLogicalPath name)])) ∨
       (∃ t vs, tpl (templateLogicalPath name) = some t ∧ t vs = Except.error e ∧
        (∃ pre, (generate pkg tpl out).1 =
          pre ++ [Event.getTemplate (templateLogicalPath name),
            Event.renderCall (templateLogicalPath name) vs]))) := by
  rcases generate_cases pkg tpl out with ⟨e1, err, hs1, hg⟩ | ⟨e1, e2, err, hs1, hs2, hg⟩ |
    ⟨e1, e2, hs1, hs2, hg⟩
  · have herr : err = e := by
      rw [hg] at h
      simpa using h
    subst herr
    obtain ⟨htt, hrt⟩ := listingStep_some_inv hs1
    rcases render_template_some_inv hrt with ⟨hl, herr2, he1⟩ | ⟨t, hl, hr, he1⟩
    · exact ⟨"traits", Or.inl rfl, Or.inl ⟨hl, herr2,
        ⟨dirEvts pkg out, by rw [hg, he1]⟩⟩⟩
    · exact ⟨"traits", Or.inl rfl, Or.inr ⟨t, _, hl, hr,
        ⟨dirEvts pkg out, by rw [hg, he1]⟩⟩⟩
  · have herr : err = e := by
      rw [hg] at h
      simpa using h
    subst herr
    obtain ⟨hts, hrt⟩ := listingStep_some_inv hs2
    rcases render_template_some_inv hrt with ⟨hl, herr2, he2⟩ | ⟨t, hl, hr, he2⟩
    · exact ⟨"specifications", Or.inr (Or.inl rfl), Or.inl ⟨hl, herr2,
        ⟨dirEvts pkg out ++ e1, by rw [hg, he2]⟩⟩⟩
    · exact ⟨"specifications", Or.inr (Or.inl rfl), Or.inr ⟨t, _, hl, hr,
        ⟨dirEvts pkg out ++ e1, by rw [hg, he2]⟩⟩⟩
  · rcases hidx : indexStep tpl pkg (outputDirPath pkg out) with ⟨e3, o3⟩
    have hg2 : generate pkg tpl out = (dirEvts pkg out ++ e1 ++ e2 ++ e3, o3) := by
      rw [hg, hidx]
    have ho3 : o3 = some e := by
      rw [hg2] at h
      simpa using h
    subst ho3
    have hrt : render_template tpl "index"
        (joinPath (outputDirPath pkg out) "index.md")
        (.index pkg (gatherNs pkg.traits) (gatherNs pkg.specifications))
        = (e3, some e) := by
      rw [← hidx]
      rfl
    rcases render_template_some_inv hrt with ⟨hl, herr2, he3⟩ | ⟨t, hl, hr, he3⟩
    · exact ⟨"index", Or.inr (Or.inr rfl), Or.inl ⟨hl, herr2,
        ⟨dirEvts pkg out ++ e1 ++ e2, by rw [hg2, he3]⟩⟩⟩
    · exact ⟨"index", Or.inr (Or.inr rfl), Or.inr ⟨t, _, hl, hr,
        ⟨dirEvts pkg out ++ e1 ++ e2, by rw [hg2, he3]⟩⟩⟩

/-- Witness for C6 at a concrete run whose template set is empty. -/
theorem C6_witness :
    (generate pkgBoth tplNone "out").2
      = some (PyError.templateNotFound (templateLogicalPath "traits")) ∧
    ∃ name, (name = "traits" ∨ name = "specifications" ∨ name = "index") ∧
      ((tplNone (templateLogicalPath name) = none ∧
        PyError.templateNotFound (templateLogicalPath "traits")
          = PyError.templateNotFound (templateLogicalPath name) ∧
        (∃ pre, (generate pkgBoth tplNone "out").1 =
          pre ++ [Event.getTemplate (templateLogicalPath name)])) ∨
       (∃ t vs, tplNone (templateLogicalPath name) = some t ∧
        t vs = Except.error (PyError.templateNotFound (templateLogicalPath "traits")) ∧
        (∃ pre, (generate pkgBoth tplNone "out").1 =
          pre ++ [Event.getTemplate (templateLogicalPath name),
            Event.renderCall (templateLogicalPath name) vs]))) :=
  ⟨by decide, C6_error_propagation pkgBoth tplNone "out"
    (PyError.templateNotFound (templateLogicalPath "traits")) (by decide)⟩

/-- C7: in every `generate` run, files are written only at
`<output_directory>/<id>-md/{traits.md, specifications.md, index.md}`, and
every template lookup is at a logical path `markdown/<name>.md.in` for
`name` one of `traits`, `specifications`, `index`. -/
theorem C7_output_layout {Ns : Type} (pkg : PackageDeclaration Ns)
    (tpl : TemplateSet Ns) (out : String) :
    (∀ p c, Event.writeFile p c ∈ (generate pkg tpl out).1 →
      p = joinPath (outputDirPath pkg out) "traits.md" ∨
      p = joinPath (outputDirPath pkg out) "specifications.md" ∨
      p = joinPath (outputDirPath pkg out) "index.md") ∧
    (∀ p, Event.getTemplate p ∈ (generate pkg tpl out).1 →
      p = templateLogicalPath "traits" ∨ p = templateLogicalPath "specifications" ∨
      p = templateLogicalPath "index") := by
  have hmd1 : ("traits" ++ ".md" : String) = "traits.md" := rfl
  have hmd2 : ("specifications" ++ ".md" : String) = "specifications.md" := rfl
  rcases hidx : indexStep tpl pkg (outputDirPath pkg out) with ⟨e3, o3⟩
  have hrt : render_template tpl "index"
      (joinPath (outputDirPath pkg out) "index.md")
      (.index pkg (gatherNs pkg.traits) (gatherNs pkg.specifications)) = (e3, o3) := by
    rw [← hidx]
    rfl
  rcases generate_cases pkg tpl out with ⟨e1, err, hs1, hg⟩ | ⟨e1, e2, err, hs1, hs2, hg⟩ |
    ⟨e1, e2, hs1, hs2, hg⟩ <;> rw [hg] <;> constructor
  · intro p c hmem
    simp only [dirEvts, List.cons_append, List.nil_append, List.mem_cons] at hmem
    rcases hmem with hmem | hmem | hmem
    · exact absurd hmem (by simp)
    · exact absurd hmem (by simp)
    · exact Or.inl (by rw [← hmd1]; exact (listingStep_event_inv hs1).2.1 p c hmem)
  · intro p hmem
    simp only [dirEvts, List.cons_append, List.nil_append, List.mem_cons] at hmem
    rcases hmem with hmem | hmem | hmem
    · exact absurd hmem (by simp)
    · exact absurd hmem (by simp)
    · exact Or.inl ((listingStep_event_inv hs1).2.2.1 p hmem)
  · intro p c hmem
    simp only [dirEvts, List.cons_append, List.nil_append, List.append_assoc,
      List.mem_cons, List.mem_append] at hmem
    rcases hmem with hmem | hmem | hmem | hmem
    · exact absurd hmem (by simp)
    · exact absurd hmem (by simp)
    · exact Or.inl (by rw [← hmd1]; exact (listingStep_event_inv hs1).2.1 p c hmem)
    · exact Or.inr (Or.inl (by rw [← hmd2]; exact (listingStep_event_inv hs2).2.1 p c hmem))
  · intro p hmem
    simp only [dirEvts, List.cons_append, List.nil_append, List.append_assoc,
      List.mem_cons, List.mem_append] at hmem
    rcases hmem with hmem | hmem | hmem | hmem
    · exact absurd hmem (by simp)
    · exact absurd hmem (by simp)
    · exact Or.inl ((listingStep_event_inv hs1).2.2.1 p hmem)
    · exact Or.inr (Or.inl ((listingStep_event_inv hs2).2.2.1 p hmem))
  · intro p c hmem
    rw [hidx] at hmem
    simp only [dirEvts, List.cons_append, List.nil_append, List.append_assoc,
      List.mem_cons, List.mem_append] at hmem
    rcases hmem with hmem | hmem | hmem | hmem | hmem
    · exact absurd hmem (by simp)
    · exact absurd hmem (by simp)
    · exact Or.inl (by rw [← hmd1]; exact (listingStep_event_inv hs1).2.1 p c hmem)
    · exact Or.inr (Or.inl (by rw [← hmd2]; exact (listingStep_event_inv hs2).2.1 p c hmem))
    · exact Or.inr (Or.inr ((render_template_event_inv hrt).2.1 p c hmem))
  · intro p hmem
    rw [hidx] at hmem
    simp only [dirEvts, List.cons_append, List.nil_append, List.append_assoc,
      List.mem_cons, List.mem_append] at hmem
    rcases hmem with hmem | hmem | hmem | hmem | hmem
    · exact absurd hmem (by simp)
    · exact absurd hmem (by simp)
    · exact Or.inl ((listingStep_event_inv hs1).2.2.1 p hmem)
    · exact Or.inr (Or.inl ((listingStep_event_inv hs2).2.2.1 p hmem))
    · exact Or.inr (Or.inr ((render_template_event_inv hrt).2.2.1 p hmem))

/-- Witness for C7 at a concrete run with a write to traits.md. -/
theorem C7_witness :
    joinPath (outputDirPath pkgBoth "out") "traits.md"
      = joinPath (outputDirPath pkgBoth "out") "traits.md" ∨
    joinPath (outputDirPath pkgBoth "out") "traits.md"
      = joinPath (outputDirPath pkgBoth "out") "specifications.md" ∨
    joinPath (outputDirPath pkgBoth "out") "traits.md"
      = joinPath (outputDirPath pkgBoth "out") "index.md" :=
  (C7_output_layout pkgBoth tplOK "out").1
    (joinPath (outputDirPath pkgBoth "out") "traits.md") "content" (by decide)

/-- C8: `generate` is a pure function of its inputs (two runs with the same
inputs yield the same trace), and replaying its trace over the files the
first run produced changes nothing: each write fully overwrites with the
same content, so the two runs' output files are byte-identical. -/
theorem C8_determinism_overwrite {Ns : Type} (pkg : PackageDeclaration Ns)
    (tpl : TemplateSet Ns) (out : String) (fs : String → Option String) :
    generate pkg tpl out = generate pkg tpl out ∧
    applyEvents (applyEvents fs (generate pkg tpl out).1) (generate pkg tpl out).1
      = applyEvents fs (generate pkg tpl out).1 :=
  ⟨rfl, applyEvents_replay _ _⟩

/-- Witness for C8 at a concrete run over the empty filesystem. -/
theorem C8_witness :
    applyEvents (applyEvents (fun _ => none) (generate pkgBoth tplOK "out").1)
        (generate pkgBoth tplOK "out").1
      = applyEvents (fun _ => none) (generate pkgBoth tplOK "out").1 :=
  (C8_determinism_overwrite pkgBoth tplOK "out" (fun _ => none)).2

/-- C9: every `generate` run's trace begins with the directory creation and
the callback for the output subdirectory — the callback is invoked
unconditionally, so a repeated call reports the directory path again even
though `exist_ok` directory creation of an existing directory creates
nothing (it is a no-op on the directory set, not an error). -/
theorem C9_dir_callback_unconditional {Ns : Type} (pkg : PackageDeclaration Ns)
    (tpl : TemplateSet Ns) (out : String) :
    (∃ rest, (generate pkg tpl out).1 =
      Event.makeDirs (outputDirPath pkg out)
        :: Event.callback (outputDirPath pkg out) :: rest) ∧
    (∀ dirs : List String,
      @applyDirEvent Ns (@applyDirEvent Ns dirs (Event.makeDirs (outputDirPath pkg out)))
          (Event.makeDirs (outputDirPath pkg out))
        = @applyDirEvent Ns dirs (Event.makeDirs (outputDirPath pkg out))) := by
  constructor
  · rcases generate_cases pkg tpl out with ⟨e1, err, hs1, hg⟩ |
      ⟨e1, e2, err, hs1, hs2, hg⟩ | ⟨e1, e2, hs1, hs2, hg⟩
    · exact ⟨e1, by rw [hg]; rfl⟩
    · exact ⟨e1 ++ e2, by rw [hg]; simp [dirEvts]⟩
    · exact ⟨e1 ++ e2 ++ (indexStep tpl pkg (outputDirPath pkg out)).1,
        by rw [hg]; simp [dirEvts]⟩
  · intro dirs
    exact applyDirEvent_makeDirs_self dirs _

/-- Witness for C9 at a concrete run. -/
theorem C9_witness :
    ∃ rest, (generate pkgBoth tplOK "out").1 =
      Event.makeDirs (outputDirPath pkgBoth "out")
        :: Event.callback (outputDirPath pkgBoth "out") :: rest :=
  (C9_dir_callback_unconditional pkgBoth tplOK "out").1

end TraitGen
